import Mathlib

/-!
A shallow embedding of the audio analysis and playback-timing core of the
repository (`src/audio/audioProcessor.js`), together with theorems checking
the specification's claims about it.

Conventions of the embedding:
* JS numbers are modelled as exact rationals (`ℚ`); the one inherently real
  operation, `Math.pow(x, 0.8)`, is modelled with `Real.rpow`.
* The mutable module-level variables of the source are gathered into explicit
  state records (`ClockState`, `BeatState`), and each source function becomes
  a state-passing Lean function.
* `Uint8Array` snapshots become `List ℕ`; the analyser being absent or a
  primitive read failing is modelled with `Option`.
-/

namespace MusicVis

/-- Source constant `fftSize = 1024`. -/
def fftSize : ℕ := 1024

/-- Source constant `beatHistorySize = 60`. -/
def beatHistorySize : ℕ := 60

/-! ## Spectral feature extraction: the per-bin loop of `calculateAudioFeatures` -/

/-- Accumulator of the `for` loop in `calculateAudioFeatures`
(`bass`, `mid`, `treble`, `volume`, `currentEnergy`). -/
structure BandAcc where
  bass : ℚ
  mid : ℚ
  treble : ℚ
  volume : ℚ
  energy : ℚ
deriving DecidableEq

/-- One iteration of the loop body: `volume += v; currentEnergy += v*v;`
then the `i < bassEnd` / `i < midEnd` / else chain. -/
def bandStep (bassEnd midEnd : ℕ) (acc : BandAcc) (i v : ℕ) : BandAcc :=
  let acc1 := { acc with volume := acc.volume + v, energy := acc.energy + (v : ℚ) * v }
  if i < bassEnd then { acc1 with bass := acc1.bass + v }
  else if i < midEnd then { acc1 with mid := acc1.mid + v }
  else { acc1 with treble := acc1.treble + v }

/-- The loop `for (let i = 0; i < bufferLength; i++)`, walking the snapshot
list with its running index. -/
def calcLoop (bassEnd midEnd : ℕ) : ℕ → List ℕ → BandAcc → BandAcc
  | _, [], acc => acc
  | i, v :: rest, acc => calcLoop bassEnd midEnd (i + 1) rest (bandStep bassEnd midEnd acc i v)

/-- Sum of the magnitudes of a snapshot segment (spec-side description of the
band sums). -/
def qsum (l : List ℕ) : ℚ := (l.map (fun v => (v : ℚ))).sum

/-- Sum of squared magnitudes of a snapshot segment (spec-side description of
the instantaneous energy numerator). -/
def qsumSq (l : List ℕ) : ℚ := (l.map (fun v => (v : ℚ) * v)).sum

/-! ## Beat detector state and per-tick step -/

/-- The beat-detection module state: `energyHistory`, `timeSinceLastBeat`,
`lastFrameTime`.  Parametrised over the number field so the same definition
serves the exact-rational theorems and the real-valued feature pipeline. -/
structure BeatState (K : Type) where
  energyHistory : List K
  timeSinceLastBeat : K
  lastFrameTime : K

/-- Source: `energyHistory.push(e); if (length > beatHistorySize) shift();` -/
def pushEnergy {α : Type} (h : List α) (e : α) : List α :=
  let h2 := h ++ [e]
  if beatHistorySize < h2.length then h2.tail else h2

/-- The advanced `timeSinceLastBeat` of a tick at wall-clock `now`:
`validLastFrameTime = lastFrameTime > 0 ? lastFrameTime : now - 16.67;
timeSinceLastBeat += now - validLastFrameTime`. -/
def advTime {K : Type} [LinearOrderedField K] (now : K) (b : BeatState K) : K :=
  let validLastFrameTime := if 0 < b.lastFrameTime then b.lastFrameTime else now - 16.67
  b.timeSinceLastBeat + (now - validLastFrameTime)

/-- The beat-detection block of `calculateAudioFeatures` (source lines
260-286): advance the cooldown clock, test the adaptive threshold on a
non-empty history, and push the current energy regardless of the outcome.
Returns the `isBeat` flag and the updated state.  `beatThreshold = 1.3`,
`beatCooldown = 150`, `ε = 1e-4`. -/
def beatTick {K : Type} [LinearOrderedField K] (now e nb : K) (b : BeatState K) :
    Bool × BeatState K :=
  let t := advTime now b
  if 0 < b.energyHistory.length then
    let avgEnergy := b.energyHistory.sum / (b.energyHistory.length : K)
    let dynamicThreshold := (1.3 : K) * (0.8 + nb * 0.5)
    if avgEnergy * dynamicThreshold + 1e-4 < e ∧ (150 : K) < t then
      (true, ⟨pushEnergy b.energyHistory e, 0, now⟩)
    else
      (false, ⟨pushEnergy b.energyHistory e, t, now⟩)
  else (false, ⟨pushEnergy b.energyHistory e, t, now⟩)

/-- A run of the tick loop: each input is `(now, currentEnergy, normalizedBass)`;
the output records each tick's wall-clock time and beat flag. -/
def runBeats {K : Type} [LinearOrderedField K] (s : BeatState K) :
    List (K × K × K) → List (K × Bool)
  | [] => []
  | (now, e, nb) :: rest =>
      let r := beatTick now e nb s
      (now, r.1) :: runBeats r.2 rest

/-! ## Feature record, defaults, and the full extractor -/

/-- The feature record returned to consumers every tick. -/
structure Features where
  volume : ℝ
  bass : ℝ
  mid : ℝ
  treble : ℝ
  rawFrequencyData : List ℕ
  rawTimeDomainData : List ℕ
  isBeat : Bool

/-- Source: `Math.pow(a / 255, 0.8)`, the sub-linear normalization. -/
noncomputable def normalize (a : ℚ) : ℝ := ((a : ℝ) / 255) ^ (0.8 : ℝ)

/-- Embeds `createDefaultFeatures()`: the analyser argument is `some frequencyBinCount`
when an analyser exists and `none` otherwise. -/
def createDefaultFeatures (analyserBins : Option ℕ) : Features :=
  let bufferLength := match analyserBins with
    | some n => n
    | none => fftSize / 2
  let validBufferLength := if 0 < bufferLength then bufferLength else 256
  { volume := 0, bass := 0, mid := 0, treble := 0,
    rawFrequencyData := List.replicate validBufferLength 0,
    rawTimeDomainData := List.replicate validBufferLength 128,
    isBeat := false }

/-- Embeds `calculateAudioFeatures()`.  `analyserBins` is `some frequencyBinCount`
when the analyser and its arrays exist; `readResult` is the pair of snapshots
delivered by `getByteFrequencyData` / `getByteTimeDomainData`, or `none` when
the read throws.  `bufferLength` is the snapshot length (identical to
`frequencyBinCount` in the source, where the arrays are allocated with that
size).  `bassEnd = floor(bufferLength * 0.1)` and `midEnd =
floor(bufferLength * 0.5)` are exactly the natural-number divisions, both in
exact arithmetic and in the source's IEEE doubles. -/
noncomputable def calculateAudioFeatures (analyserBins : Option ℕ)
    (readResult : Option (List ℕ × List ℕ)) (now : ℝ) (b : BeatState ℝ) :
    Features × BeatState ℝ :=
  match analyserBins with
  | none => (createDefaultFeatures none, b)
  | some nBins =>
    match readResult with
    | none => (createDefaultFeatures (some nBins), b)
    | some (freq, timeDom) =>
      let bufferLength := freq.length
      let bassEnd := bufferLength / 10
      let midEnd := bufferLength / 2
      if bufferLength = 0 then (createDefaultFeatures (some nBins), b)
      else
        let acc := calcLoop bassEnd midEnd 0 freq ⟨0, 0, 0, 0, 0⟩
        let validBassEnd : ℕ := if 0 < bassEnd then bassEnd else 1
        let validMidRange : ℕ := if 0 < midEnd - bassEnd then midEnd - bassEnd else 1
        let validTrebleRange : ℕ := if 0 < bufferLength - midEnd then bufferLength - midEnd else 1
        let volume := acc.volume / bufferLength
        let bass := acc.bass / validBassEnd
        let mid := acc.mid / validMidRange
        let treble := acc.treble / validTrebleRange
        let currentEnergy := acc.energy / bufferLength
        let r := beatTick now ((currentEnergy : ℚ) : ℝ) (normalize bass) b
        ({ volume := normalize volume, bass := normalize bass, mid := normalize mid,
           treble := normalize treble, rawFrequencyData := freq,
           rawTimeDomainData := timeDom, isBeat := r.1 }, r.2)

/-! ## Playback clock -/

/-- The playback-clock portion of the module state.  `hasBuffer` stands for
the presence of `audioBuffer` (and of the other prerequisites checked by
`startPlayback`); `duration` is `audioBuffer.duration`. -/
structure ClockState where
  hasBuffer : Bool
  duration : ℚ
  isPlaying : Bool
  startTime : ℚ
  startedAt : ℚ
deriving DecidableEq

/-- Embeds `getCurrentTime()`: `if (!audioBuffer || !isPlaying) return startTime;
return audioContext.currentTime - startedAt + startTime;` -/
def getCurrentTime (now : ℚ) (s : ClockState) : ℚ :=
  if s.hasBuffer = false ∨ s.isPlaying = false then s.startTime
  else now - s.startedAt + s.startTime

/-- Embeds `getDuration()`. -/
def getDuration (s : ClockState) : ℚ :=
  if s.hasBuffer then s.duration else 0

/-- Embeds `startPlayback(offset)` at wall-clock `now`; `startOk` tells whether
`sourceNode.start` succeeds.  The source assigns `startTime = validOffset`
and `startedAt = audioContext.currentTime` before `sourceNode.start` can
throw, and sets `isPlaying = true` only after it succeeds. -/
def startPlayback (offset now : ℚ) (startOk : Bool) (s : ClockState) : Bool × ClockState :=
  if s.hasBuffer = false then (false, s)
  else
    let validOffset := max 0 (min offset s.duration)
    let s1 := { s with startTime := validOffset, startedAt := now }
    if startOk then (true, { s1 with isPlaying := true }) else (false, s1)

/-- Embeds `stopPlayback()` at wall-clock `now`: capture the playback position while
still playing, then clear `isPlaying`. -/
def stopPlayback (now : ℚ) (s : ClockState) : ClockState :=
  let s1 := if s.isPlaying = true ∧ 0 < now then { s with startTime := getCurrentTime now s } else s
  { s1 with isPlaying := false }

/-- The play/pause toggle of the caller (`handlePlayPause` in the main
module): resume passes `getCurrentTime()` to `startPlayback` and only runs
when paused; pause calls `stopPlayback` and only runs when playing.
`true` is a play request, `false` a pause request, at wall-clock `t`. -/
def handlePlayPauseOp (isPlay : Bool) (t : ℚ) (s : ClockState) : ClockState :=
  if isPlay then
    if s.isPlaying then s else (startPlayback (getCurrentTime t s) t true s).2
  else
    if s.isPlaying then stopPlayback t s else s

/-- A run of timed play/pause operations, observing `getCurrentTime` right
after each operation at the operation's wall-clock time. -/
def runTrace (s : ClockState) : List (Bool × ℚ) → List ℚ
  | [] => []
  | op :: rest =>
      let s' := handlePlayPauseOp op.1 op.2 s
      getCurrentTime op.2 s' :: runTrace s' rest

/-- The run never lets playback pass the end of the track: at each operation
applied to a playing state, the elapsed offset is still within the duration. -/
def pastEndFreeB (s : ClockState) : List (Bool × ℚ) → Bool
  | [] => true
  | op :: rest =>
      (!s.isPlaying || decide (op.2 - s.startedAt + s.startTime ≤ s.duration)) &&
        pastEndFreeB (handlePlayPauseOp op.1 op.2 s) rest

/-- The full module state touched by `resetAudio`. -/
structure AudioState where
  clock : ClockState
  beat : BeatState ℚ

/-- Embeds `resetAudio()`: drops the buffer and zeroes the clock.  (It does not
touch `energyHistory`, `timeSinceLastBeat` or `lastFrameTime`.) -/
def resetAudio (a : AudioState) : AudioState :=
  { a with clock := { a.clock with hasBuffer := false, isPlaying := false, startTime := 0, startedAt := 0 } }

/-! ## Helper lemmas -/

lemma qsum_nil : qsum [] = 0 := rfl

lemma qsum_cons (v : ℕ) (l : List ℕ) : qsum (v :: l) = v + qsum l := by
  simp [qsum]

lemma qsumSq_cons (v : ℕ) (l : List ℕ) : qsumSq (v :: l) = (v : ℚ) * v + qsumSq l := by
  simp [qsumSq]

/-- The per-bin loop computes exactly the segment sums of the snapshot:
running it from index `n` accumulates the magnitudes whose global index falls
in `[0, bassEnd)`, `[bassEnd, midEnd)` and `[midEnd, N)` respectively, plus
the overall sum and the sum of squares. -/
lemma calcLoop_eq (bassEnd midEnd : ℕ) (hbm : bassEnd ≤ midEnd) :
    ∀ (l : List ℕ) (n : ℕ) (acc : BandAcc),
    calcLoop bassEnd midEnd n l acc =
      { bass := acc.bass + qsum (l.take (bassEnd - n)),
        mid := acc.mid + qsum ((l.drop (bassEnd - n)).take ((midEnd - n) - (bassEnd - n))),
        treble := acc.treble + qsum (l.drop (midEnd - n)),
        volume := acc.volume + qsum l,
        energy := acc.energy + qsumSq l } := by
  intro l
  induction l with
  | nil =>
      intro n acc
      simp [calcLoop, qsum, qsumSq]
  | cons v rest ih =>
      intro n acc
      rw [calcLoop, ih]
      by_cases h1 : n < bassEnd
      · have h2 : n < midEnd := lt_of_lt_of_le h1 hbm
        obtain ⟨m1, hm1⟩ : ∃ m1, bassEnd - n = m1 + 1 := ⟨bassEnd - n - 1, by omega⟩
        obtain ⟨m2, hm2⟩ : ∃ m2, midEnd - n = m2 + 1 := ⟨midEnd - n - 1, by omega⟩
        have e1 : bassEnd - (n + 1) = m1 := by omega
        have e2 : midEnd - (n + 1) = m2 := by omega
        have e3 : (midEnd - (n + 1)) - (bassEnd - (n + 1)) = (midEnd - n) - (bassEnd - n) := by
          omega
        simp only [bandStep, if_pos h1, e1, e2, e3, hm1, hm2, List.take_succ_cons,
          List.drop_succ_cons, Nat.succ_sub_succ, qsum_cons, qsumSq_cons]
        rw [BandAcc.mk.injEq]
        refine ⟨by ring, by ring, by ring, by ring, by ring⟩
      · by_cases h2 : n < midEnd
        · obtain ⟨m2, hm2⟩ : ∃ m2, midEnd - n = m2 + 1 := ⟨midEnd - n - 1, by omega⟩
          have e1 : bassEnd - (n + 1) = 0 := by omega
          have e1' : bassEnd - n = 0 := by omega
          have e2 : midEnd - (n + 1) = m2 := by omega
          simp only [bandStep, if_neg h1, if_pos h2, e1, e1', e2, hm2, List.take_succ_cons,
            List.drop_succ_cons, List.drop_zero, Nat.sub_zero,
            qsum_cons, qsumSq_cons, List.take_zero]
          rw [BandAcc.mk.injEq]
          refine ⟨by ring, by ring, by ring, by ring, by ring⟩
        · have e1 : bassEnd - (n + 1) = 0 := by omega
          have e1' : bassEnd - n = 0 := by omega
          have e2 : midEnd - (n + 1) = 0 := by omega
          have e2' : midEnd - n = 0 := by omega
          simp only [bandStep, if_neg h1, if_neg h2, e1, e1', e2, e2', List.drop_zero,
            Nat.sub_zero, qsum_cons, qsumSq_cons, List.take_zero]
          rw [BandAcc.mk.injEq]
          refine ⟨by ring, by ring, by ring, by ring, by ring⟩

lemma nat_if_pos_eq_max (b : ℕ) : (if 0 < b then b else 1) = max b 1 := by
  cases b with
  | zero => rfl
  | succ k => simp [Nat.succ_le_iff]

/-- Lemma: `beatTick` pushes the current energy onto the history in every branch. -/
lemma beatTick_history {K : Type} [LinearOrderedField K] (now e nb : K) (b : BeatState K) :
    (beatTick now e nb b).2.energyHistory = pushEnergy b.energyHistory e := by
  simp only [beatTick]
  split_ifs <;> rfl

/-! ## Claims -/

/-- C1: for every frequency snapshot of bin count `N > 0`, the feature
extractor computes `bassEnd = floor(0.1·N)` and `midEnd = floor(0.5·N)`, sums
the magnitudes over `[0, bassEnd)`, `[bassEnd, midEnd)`, `[midEnd, N)` and over
all bins, divides each band sum by its bin count with a minimum divisor of 1
(and the overall sum by `N`), normalizes each average `a` to `(a/255)^0.8` to
produce `bass`, `mid`, `treble`, `volume`, and computes the instantaneous
energy as the sum of squared magnitudes over all bins divided by `N`. -/
theorem c1_feature_extraction (freq td : List ℕ) (n : ℕ) (now : ℝ) (b : BeatState ℝ)
    (h : 0 < freq.length) :
    freq.length / 10 = Nat.floor ((0.1 : ℚ) * freq.length) ∧
    freq.length / 2 = Nat.floor ((0.5 : ℚ) * freq.length) ∧
    (calculateAudioFeatures (some n) (some (freq, td)) now b).1.bass =
      normalize (qsum (freq.take (freq.length / 10)) / (max (freq.length / 10) 1 : ℕ)) ∧
    (calculateAudioFeatures (some n) (some (freq, td)) now b).1.mid =
      normalize (qsum ((freq.drop (freq.length / 10)).take (freq.length / 2 - freq.length / 10)) /
        (max (freq.length / 2 - freq.length / 10) 1 : ℕ)) ∧
    (calculateAudioFeatures (some n) (some (freq, td)) now b).1.treble =
      normalize (qsum (freq.drop (freq.length / 2)) /
        (max (freq.length - freq.length / 2) 1 : ℕ)) ∧
    (calculateAudioFeatures (some n) (some (freq, td)) now b).1.volume =
      normalize (qsum freq / freq.length) ∧
    (calculateAudioFeatures (some n) (some (freq, td)) now b).2.energyHistory =
      pushEnergy b.energyHistory (((qsumSq freq / freq.length : ℚ) : ℝ)) := by
  have hbm : freq.length / 10 ≤ freq.length / 2 := by omega
  have hfloor1 : freq.length / 10 = Nat.floor ((0.1 : ℚ) * freq.length) := by
    have h10 : (0.1 : ℚ) * freq.length = (freq.length : ℚ) / ((10 : ℕ) : ℚ) := by
      push_cast
      ring
    rw [h10, Nat.floor_div_nat, Nat.floor_natCast]
  have hfloor2 : freq.length / 2 = Nat.floor ((0.5 : ℚ) * freq.length) := by
    have h2 : (0.5 : ℚ) * freq.length = (freq.length : ℚ) / ((2 : ℕ) : ℚ) := by
      push_cast
      ring
    rw [h2, Nat.floor_div_nat, Nat.floor_natCast]
  refine ⟨hfloor1, hfloor2, ?_⟩
  simp only [calculateAudioFeatures]
  rw [if_neg (by omega)]
  simp only [calcLoop_eq (freq.length / 10) (freq.length / 2) hbm freq 0 ⟨0, 0, 0, 0, 0⟩,
    Nat.sub_zero, List.take_zero, List.drop_zero, zero_add, beatTick_history,
    nat_if_pos_eq_max]
  exact ⟨trivial, trivial, trivial, trivial, trivial⟩

/-- C1 witness: the theorem instantiated at a concrete three-bin snapshot. -/
theorem c1_feature_extraction_witness :
    0 < ([10, 20, 30] : List ℕ).length ∧
    (([10, 20, 30] : List ℕ).length / 10 = Nat.floor ((0.1 : ℚ) * ([10, 20, 30] : List ℕ).length) ∧
     ([10, 20, 30] : List ℕ).length / 2 = Nat.floor ((0.5 : ℚ) * ([10, 20, 30] : List ℕ).length) ∧
     (calculateAudioFeatures (some 3) (some ([10, 20, 30], [])) 0 ⟨[], 0, 1⟩).1.bass =
       normalize (qsum (([10, 20, 30] : List ℕ).take (([10, 20, 30] : List ℕ).length / 10)) /
         (max (([10, 20, 30] : List ℕ).length / 10) 1 : ℕ)) ∧
     (calculateAudioFeatures (some 3) (some ([10, 20, 30], [])) 0 ⟨[], 0, 1⟩).1.mid =
       normalize (qsum ((([10, 20, 30] : List ℕ).drop (([10, 20, 30] : List ℕ).length / 10)).take
           (([10, 20, 30] : List ℕ).length / 2 - ([10, 20, 30] : List ℕ).length / 10)) /
         (max (([10, 20, 30] : List ℕ).length / 2 - ([10, 20, 30] : List ℕ).length / 10) 1 : ℕ)) ∧
     (calculateAudioFeatures (some 3) (some ([10, 20, 30], [])) 0 ⟨[], 0, 1⟩).1.treble =
       normalize (qsum (([10, 20, 30] : List ℕ).drop (([10, 20, 30] : List ℕ).length / 2)) /
         (max (([10, 20, 30] : List ℕ).length - ([10, 20, 30] : List ℕ).length / 2) 1 : ℕ)) ∧
     (calculateAudioFeatures (some 3) (some ([10, 20, 30], [])) 0 ⟨[], 0, 1⟩).1.volume =
       normalize (qsum ([10, 20, 30] : List ℕ) / ([10, 20, 30] : List ℕ).length) ∧
     (calculateAudioFeatures (some 3) (some ([10, 20, 30], [])) 0 ⟨[], 0, 1⟩).2.energyHistory =
       pushEnergy (⟨[], 0, 1⟩ : BeatState ℝ).energyHistory
         (((qsumSq ([10, 20, 30] : List ℕ) / ([10, 20, 30] : List ℕ).length : ℚ) : ℝ))) :=
  ⟨by decide, c1_feature_extraction [10, 20, 30] [] 3 0 ⟨[], 0, 1⟩ (by decide)⟩

/-- A push onto a history within capacity drops exactly the overflow (one
element when the history was full, none otherwise). -/
lemma pushEnergy_eq_drop {α : Type} (h : List α) (e : α) (hlen : h.length ≤ beatHistorySize) :
    pushEnergy h e = (h ++ [e]).drop (h.length + 1 - beatHistorySize) := by
  unfold pushEnergy
  by_cases hlt : h.length < beatHistorySize
  · rw [if_neg (by simp; omega)]
    have : h.length + 1 - beatHistorySize = 0 := by omega
    rw [this, List.drop_zero]
  · have h60 : h.length = beatHistorySize := by omega
    rw [if_pos (by simp; omega)]
    have : h.length + 1 - beatHistorySize = 1 := by omega
    rw [this, List.drop_one]

/-- Folding a sequence of pushes over a history within capacity keeps exactly
the newest `beatHistorySize` values of `h ++ es`, in order. -/
lemma foldl_pushEnergy_eq_drop {α : Type} :
    ∀ (es : List α) (h : List α), h.length ≤ beatHistorySize →
    es.foldl pushEnergy h = (h ++ es).drop (h.length + es.length - beatHistorySize) := by
  intro es
  induction es with
  | nil =>
      intro h hlen
      simp only [List.foldl_nil, List.append_nil, List.length_nil, Nat.add_zero]
      have : h.length - beatHistorySize = 0 := by omega
      rw [this, List.drop_zero]
  | cons e es' ih =>
      intro h hlen
      rw [List.foldl_cons, pushEnergy_eq_drop h e hlen]
      have hd : h.length + 1 - beatHistorySize ≤ (h ++ [e]).length := by
        simp
      have hlen' : ((h ++ [e]).drop (h.length + 1 - beatHistorySize)).length ≤ beatHistorySize := by
        simp only [List.length_drop, List.length_append, List.length_singleton]
        omega
      rw [ih _ hlen', ← List.drop_append_of_le_length hd, List.drop_drop]
      have hls : (h ++ [e]) ++ es' = h ++ e :: es' := by simp
      rw [hls]
      have l1 : (h ++ [e]).length = h.length + 1 := by simp
      have l2 : ((h ++ [e]).drop (h.length + 1 - beatHistorySize)).length =
          h.length + 1 - (h.length + 1 - beatHistorySize) := by
        rw [List.length_drop, l1]
      have l3 : (e :: es').length = es'.length + 1 := by simp
      exact congrArg (fun k => List.drop k (h ++ e :: es')) (by omega)

/-! Claims C2, C5, C8 -/

/-- C2: on every tick with a non-empty energy history, a beat is declared if
and only if `currentEnergy > avgEnergy * (1.3 * (0.8 + 0.5 * normalizedBass))
+ 1e-4` and the advanced `timeSinceLastBeat` exceeds 150 ms, where `avgEnergy`
is the arithmetic mean of the history; when a beat is declared the resulting
`timeSinceLastBeat` is 0; when the history is empty, no beat is declared. -/
theorem c2_beat_rule (b : BeatState ℚ) (now e nb : ℚ) :
    (b.energyHistory ≠ [] →
      ((beatTick now e nb b).1 = true ↔
        (b.energyHistory.sum / (b.energyHistory.length : ℚ) * (1.3 * (0.8 + 0.5 * nb)) + 1e-4 < e ∧
         150 < advTime now b))) ∧
    ((beatTick now e nb b).1 = true → (beatTick now e nb b).2.timeSinceLastBeat = 0) ∧
    (b.energyHistory = [] → (beatTick now e nb b).1 = false) := by
  refine ⟨?_, ?_, ?_⟩
  · intro hne
    have hlen : 0 < b.energyHistory.length := List.length_pos.mpr hne
    have hconv : (1.3 : ℚ) * (0.8 + nb * 0.5) = 1.3 * (0.8 + 0.5 * nb) := by ring
    simp only [beatTick, if_pos hlen, hconv]
    split_ifs with hc
    · exact iff_of_true rfl hc
    · exact iff_of_false (by simp) hc
  · simp only [beatTick]
    split_ifs <;> simp
  · intro hemp
    simp [beatTick, hemp]

/-- C2 witness: the rule applied to a one-element history on a beat tick. -/
theorem c2_beat_rule_witness :
    (⟨[1], 1000, 1⟩ : BeatState ℚ).energyHistory ≠ [] ∧
    ((beatTick 2 100 0 (⟨[1], 1000, 1⟩ : BeatState ℚ)).1 = true ↔
      ((⟨[1], 1000, 1⟩ : BeatState ℚ).energyHistory.sum /
          ((⟨[1], 1000, 1⟩ : BeatState ℚ).energyHistory.length : ℚ) * (1.3 * (0.8 + 0.5 * 0)) +
          1e-4 < 100 ∧
       150 < advTime 2 (⟨[1], 1000, 1⟩ : BeatState ℚ))) :=
  ⟨by decide, (c2_beat_rule ⟨[1], 1000, 1⟩ 2 100 0).1 (by decide)⟩

/-- C5: the energy history never exceeds 60 entries, the push happens on every
tick whether or not a beat fired, and eviction is oldest-first FIFO: after at
least 60 pushes the history equals the last 60 pushed values in push order. -/
theorem c5_history_fifo :
    (∀ (es h : List ℚ), h.length ≤ beatHistorySize →
      (es.foldl pushEnergy h).length ≤ beatHistorySize) ∧
    (∀ (es h : List ℚ), h.length ≤ beatHistorySize → beatHistorySize ≤ es.length →
      es.foldl pushEnergy h = es.drop (es.length - beatHistorySize)) ∧
    (∀ (now e nb : ℚ) (b : BeatState ℚ),
      (beatTick now e nb b).2.energyHistory = pushEnergy b.energyHistory e) := by
  refine ⟨?_, ?_, ?_⟩
  · intro es h hlen
    rw [foldl_pushEnergy_eq_drop es h hlen, List.length_drop, List.length_append]
    omega
  · intro es h hlen hes
    rw [foldl_pushEnergy_eq_drop es h hlen]
    have : h.length + es.length - beatHistorySize = h.length + (es.length - beatHistorySize) := by
      omega
    rw [this, ← List.drop_drop, List.drop_left]
  · intro now e nb b
    exact beatTick_history now e nb b

/-- C5 witness: 100 known pushes from an empty history leave the last 60. -/
theorem c5_history_fifo_witness :
    ([] : List ℚ).length ≤ beatHistorySize ∧
    beatHistorySize ≤ ((List.range 100).map (fun k => (k : ℚ))).length ∧
    ((List.range 100).map (fun k => (k : ℚ))).foldl pushEnergy [] =
      ((List.range 100).map (fun k => (k : ℚ))).drop
        (((List.range 100).map (fun k => (k : ℚ))).length - beatHistorySize) :=
  ⟨by decide, by decide,
    c5_history_fifo.2.1 ((List.range 100).map (fun k => (k : ℚ))) [] (by decide) (by decide)⟩

/-- C8 (original claim refuted): with a one-element history of mean 1, a tick
whose energy is exactly `avgEnergy * 1.3` does fire a beat when the
normalized bass is 0 — the dynamic threshold is then `1.3 * 0.8 = 1.04`, below
the claimed `1.3`. -/
theorem c8_counterexample :
    (⟨[1], 1000, 1⟩ : BeatState ℚ).energyHistory.sum /
      ((⟨[1], 1000, 1⟩ : BeatState ℚ).energyHistory.length : ℚ) = 1 ∧
    150 < advTime 2 (⟨[1], 1000, 1⟩ : BeatState ℚ) ∧
    (beatTick 2 (1 * 1.3) 0 (⟨[1], 1000, 1⟩ : BeatState ℚ)).1 = true := by
  refine ⟨by norm_num, by norm_num [advTime], ?_⟩
  norm_num [beatTick, advTime]

/-- C8 (amended): with normalized bass 0.4 — the value at which the dynamic
threshold is exactly the base threshold 1.3 — a tick whose energy equals
`avgEnergy * 1.3` fires no beat (the comparison is strict); with normalized
bass 0 and a nonnegative history, a tick whose energy is `avgEnergy * 1.3 + 1`
fires a beat provided the 150 ms cooldown has elapsed. -/
theorem c8_boundary (b : BeatState ℚ) (now : ℚ) (hne : b.energyHistory ≠ []) :
    (beatTick now (b.energyHistory.sum / (b.energyHistory.length : ℚ) * 1.3) 0.4 b).1 = false ∧
    (0 ≤ b.energyHistory.sum → 150 < advTime now b →
      (beatTick now (b.energyHistory.sum / (b.energyHistory.length : ℚ) * 1.3 + 1) 0 b).1 =
        true) := by
  have hlen : 0 < b.energyHistory.length := List.length_pos.mpr hne
  constructor
  · simp only [beatTick, if_pos hlen]
    rw [if_neg]
    rintro ⟨h1, -⟩
    have heq : b.energyHistory.sum / (b.energyHistory.length : ℚ) * ((1.3 : ℚ) * (0.8 + 0.4 * 0.5)) =
        b.energyHistory.sum / (b.energyHistory.length : ℚ) * 1.3 := by ring
    rw [heq] at h1
    linarith
  · intro hsum hcool
    have havg : 0 ≤ b.energyHistory.sum / (b.energyHistory.length : ℚ) := by
      apply div_nonneg hsum
      positivity
    simp only [beatTick, if_pos hlen]
    rw [if_pos]
    refine ⟨?_, hcool⟩
    have heq : b.energyHistory.sum / (b.energyHistory.length : ℚ) * ((1.3 : ℚ) * (0.8 + 0 * 0.5)) =
        b.energyHistory.sum / (b.energyHistory.length : ℚ) * 1.04 := by ring
    rw [heq]
    nlinarith [havg]

/-- C8 witness: the amended boundary behavior at a concrete history. -/
theorem c8_boundary_witness :
    ((⟨[2], 1000, 1⟩ : BeatState ℚ).energyHistory ≠ [] ∧
     0 ≤ (⟨[2], 1000, 1⟩ : BeatState ℚ).energyHistory.sum ∧
     150 < advTime 2 (⟨[2], 1000, 1⟩ : BeatState ℚ)) ∧
    (beatTick 2 ((⟨[2], 1000, 1⟩ : BeatState ℚ).energyHistory.sum /
        ((⟨[2], 1000, 1⟩ : BeatState ℚ).energyHistory.length : ℚ) * 1.3) 0.4
      (⟨[2], 1000, 1⟩ : BeatState ℚ)).1 = false ∧
    (beatTick 2 ((⟨[2], 1000, 1⟩ : BeatState ℚ).energyHistory.sum /
        ((⟨[2], 1000, 1⟩ : BeatState ℚ).energyHistory.length : ℚ) * 1.3 + 1) 0
      (⟨[2], 1000, 1⟩ : BeatState ℚ)).1 = true :=
  ⟨⟨by decide, by norm_num, by norm_num [advTime]⟩,
    (c8_boundary ⟨[2], 1000, 1⟩ 2 (by decide)).1,
    (c8_boundary ⟨[2], 1000, 1⟩ 2 (by decide)).2 (by norm_num) (by norm_num [advTime])⟩

/-! Helper lemmas about a single beat tick, used by the cooldown theorem. -/

lemma beatTick_lastFrameTime {K : Type} [LinearOrderedField K] (now e nb : K) (b : BeatState K) :
    (beatTick now e nb b).2.lastFrameTime = now := by
  simp only [beatTick]
  split_ifs <;> rfl

lemma beatTick_fired_cooldown {K : Type} [LinearOrderedField K] (now e nb : K)
    (b : BeatState K) (hf : (beatTick now e nb b).1 = true) : (150 : K) < advTime now b := by
  simp only [beatTick] at hf
  split_ifs at hf with h1 h2
  exact h2.2

lemma beatTick_tslb_fired {K : Type} [LinearOrderedField K] (now e nb : K)
    (b : BeatState K) (hf : (beatTick now e nb b).1 = true) :
    (beatTick now e nb b).2.timeSinceLastBeat = 0 := by
  simp only [beatTick] at hf ⊢
  split_ifs at hf ⊢
  all_goals simp_all

lemma beatTick_tslb_not_fired {K : Type} [LinearOrderedField K] (now e nb : K)
    (b : BeatState K) (hf : (beatTick now e nb b).1 = false) :
    (beatTick now e nb b).2.timeSinceLastBeat = advTime now b := by
  simp only [beatTick] at hf ⊢
  split_ifs at hf ⊢
  all_goals simp_all

lemma advTime_of_pos {K : Type} [LinearOrderedField K] (now : K) (b : BeatState K)
    (h : 0 < b.lastFrameTime) :
    advTime now b = b.timeSinceLastBeat + (now - b.lastFrameTime) := by
  simp [advTime, h]

lemma runBeats_cons {K : Type} [LinearOrderedField K] (s : BeatState K) (now e nb : K)
    (rest : List (K × K × K)) :
    runBeats s ((now, e, nb) :: rest) =
      (now, (beatTick now e nb s).1) :: runBeats (beatTick now e nb s).2 rest := rfl

/-- If a beat fires at position `j` of a run, its wall-clock time exceeds the
starting `lastFrameTime` by more than the cooldown budget still owed
(`150 - timeSinceLastBeat`). -/
lemma runBeats_beat_time_lb :
    ∀ (inputs : List (ℚ × ℚ × ℚ)) (s : BeatState ℚ),
    0 < s.lastFrameTime → 0 ≤ s.timeSinceLastBeat →
    List.Chain' (· ≤ ·) (s.lastFrameTime :: inputs.map (fun p => p.1)) →
    ∀ j, j < inputs.length →
    ((runBeats s inputs).getD j (0, false)).2 = true →
    s.lastFrameTime + (150 - s.timeSinceLastBeat) < ((runBeats s inputs).getD j (0, false)).1 := by
  intro inputs
  induction inputs with
  | nil =>
      intro s _ _ _ j hj
      simp at hj
  | cons p rest ih =>
      obtain ⟨now, e, nb⟩ := p
      intro s hlf hts hchain j hj hbeat
      rw [List.map_cons, List.chain'_cons] at hchain
      obtain ⟨hle, hchain'⟩ := hchain
      rw [runBeats_cons] at hbeat ⊢
      match j with
      | 0 =>
          rw [List.getD_cons_zero] at hbeat ⊢
          have hcool := beatTick_fired_cooldown now e nb s hbeat
          rw [advTime_of_pos now s hlf] at hcool
          simp only
          linarith
      | jj + 1 =>
          rw [List.getD_cons_succ] at hbeat ⊢
          have hlf' : 0 < (beatTick now e nb s).2.lastFrameTime := by
            rw [beatTick_lastFrameTime]
            linarith
          have hts' : 0 ≤ (beatTick now e nb s).2.timeSinceLastBeat := by
            rcases Bool.eq_false_or_eq_true (beatTick now e nb s).1 with hf | hf
            · rw [beatTick_tslb_fired now e nb s hf]
            · rw [beatTick_tslb_not_fired now e nb s hf, advTime_of_pos now s hlf]
              linarith
          have hchain'' : List.Chain'
              (· ≤ ·) ((beatTick now e nb s).2.lastFrameTime :: rest.map (fun p => p.1)) := by
            rw [beatTick_lastFrameTime]
            exact hchain'
          have hjj : jj < rest.length := by
            simpa using hj
          have hres := ih (beatTick now e nb s).2 hlf' hts' hchain'' jj hjj hbeat
          rw [beatTick_lastFrameTime] at hres
          rcases Bool.eq_false_or_eq_true (beatTick now e nb s).1 with hf | hf
          · rw [beatTick_tslb_fired now e nb s hf] at hres
            linarith
          · rw [beatTick_tslb_not_fired now e nb s hf, advTime_of_pos now s hlf] at hres
            linarith

/-- C6: two beats are never reported less than 150 ms apart.  For every run
of the tick loop from a state with a positive last-frame timestamp and a
nonnegative cooldown counter, and every nondecreasing sequence of tick times,
any two ticks that both report a beat are more than 150 ms of wall-clock time
apart, regardless of the energy values fed in. -/
theorem c6_beat_spacing :
    ∀ (inputs : List (ℚ × ℚ × ℚ)) (s : BeatState ℚ),
    0 < s.lastFrameTime → 0 ≤ s.timeSinceLastBeat →
    List.Chain' (· ≤ ·) (s.lastFrameTime :: inputs.map (fun p => p.1)) →
    ∀ i j, i < j → j < inputs.length →
    ((runBeats s inputs).getD i (0, false)).2 = true →
    ((runBeats s inputs).getD j (0, false)).2 = true →
    ((runBeats s inputs).getD i (0, false)).1 + 150 <
      ((runBeats s inputs).getD j (0, false)).1 := by
  intro inputs
  induction inputs with
  | nil =>
      intro s _ _ _ i j _ hj
      simp at hj
  | cons p rest ih =>
      obtain ⟨now, e, nb⟩ := p
      intro s hlf hts hchain i j hij hj hbi hbj
      rw [List.map_cons, List.chain'_cons] at hchain
      obtain ⟨hle, hchain'⟩ := hchain
      rw [runBeats_cons] at hbi hbj ⊢
      have hlf' : 0 < (beatTick now e nb s).2.lastFrameTime := by
        rw [beatTick_lastFrameTime]
        linarith
      have hchain'' : List.Chain'
          (· ≤ ·) ((beatTick now e nb s).2.lastFrameTime :: rest.map (fun p => p.1)) := by
        rw [beatTick_lastFrameTime]
        exact hchain'
      match i, j with
      | 0, jj + 1 =>
          rw [List.getD_cons_zero] at hbi ⊢
          rw [List.getD_cons_succ] at hbj ⊢
          have hts' : 0 ≤ (beatTick now e nb s).2.timeSinceLastBeat := by
            rw [beatTick_tslb_fired now e nb s hbi]
          have hjj : jj < rest.length := by simpa using hj
          have hres := runBeats_beat_time_lb rest (beatTick now e nb s).2 hlf' hts'
            hchain'' jj hjj hbj
          rw [beatTick_lastFrameTime, beatTick_tslb_fired now e nb s hbi] at hres
          simp only
          linarith
      | ii + 1, jj + 1 =>
          rw [List.getD_cons_succ] at hbi hbj ⊢
          have hts' : 0 ≤ (beatTick now e nb s).2.timeSinceLastBeat := by
            rcases Bool.eq_false_or_eq_true (beatTick now e nb s).1 with hf | hf
            · rw [beatTick_tslb_fired now e nb s hf]
            · rw [beatTick_tslb_not_fired now e nb s hf, advTime_of_pos now s hlf]
              linarith
          have hjj : jj < rest.length := by simpa using hj
          exact ih (beatTick now e nb s).2 hlf' hts' hchain'' ii jj
            (by omega) hjj hbi hbj

/-- C6 witness: a two-tick run in which both ticks fire, 198 ms apart. -/
theorem c6_beat_spacing_witness :
    (0 < (⟨[1], 1000, 1⟩ : BeatState ℚ).lastFrameTime ∧
     0 ≤ (⟨[1], 1000, 1⟩ : BeatState ℚ).timeSinceLastBeat ∧
     List.Chain' (· ≤ ·) ((⟨[1], 1000, 1⟩ : BeatState ℚ).lastFrameTime ::
       ([((2 : ℚ), (100 : ℚ), (0 : ℚ)), (200, 100000, 0)].map (fun p => p.1)))) ∧
    ((runBeats (⟨[1], 1000, 1⟩ : BeatState ℚ)
        [((2 : ℚ), (100 : ℚ), (0 : ℚ)), (200, 100000, 0)]).getD 0 (0, false)).1 + 150 <
      ((runBeats (⟨[1], 1000, 1⟩ : BeatState ℚ)
        [((2 : ℚ), (100 : ℚ), (0 : ℚ)), (200, 100000, 0)]).getD 1 (0, false)).1 :=
  ⟨⟨by norm_num, by norm_num, by norm_num [List.chain'_cons]⟩,
    c6_beat_spacing [((2 : ℚ), (100 : ℚ), (0 : ℚ)), (200, 100000, 0)] ⟨[1], 1000, 1⟩
      (by norm_num) (by norm_num) (by norm_num [List.chain'_cons]) 0 1 (by norm_num)
      (by norm_num)
      (by norm_num [runBeats_cons, beatTick, advTime, List.getD_cons_zero])
      (by norm_num [runBeats_cons, beatTick, advTime, List.getD_cons_succ,
        List.getD_cons_zero, pushEnergy, beatHistorySize])⟩

/-- Effect of one play/pause toggle on a well-formed clock state: the buffer
and duration are untouched, the stored offset stays within `[0, duration]`,
the resume timestamp is current, and the observed offset moves forward but
not past the duration. -/
lemma clockStep_props (op : Bool) (t t₀ : ℚ) (s : ClockState)
    (hbuf : s.hasBuffer = true) (h0 : 0 ≤ s.startTime) (h1 : s.startTime ≤ s.duration)
    (hsa : s.isPlaying = true → s.startedAt ≤ t₀) (ht0 : 0 < t₀) (htt : t₀ ≤ t)
    (hpe : s.isPlaying = true → t - s.startedAt + s.startTime ≤ s.duration) :
    (handlePlayPauseOp op t s).hasBuffer = true ∧
    (handlePlayPauseOp op t s).duration = s.duration ∧
    0 ≤ (handlePlayPauseOp op t s).startTime ∧
    (handlePlayPauseOp op t s).startTime ≤ s.duration ∧
    ((handlePlayPauseOp op t s).isPlaying = true → (handlePlayPauseOp op t s).startedAt ≤ t) ∧
    getCurrentTime t₀ s ≤ getCurrentTime t (handlePlayPauseOp op t s) ∧
    getCurrentTime t (handlePlayPauseOp op t s) ≤ s.duration := by
  have ht : 0 < t := lt_of_lt_of_le ht0 htt
  obtain ⟨hb, dur, ip, st, sa⟩ := s
  cases hb with
  | false => simp at hbuf
  | true =>
  cases op with
  | false =>
      cases ip with
      | false =>
          refine ⟨rfl, rfl, h0, h1, by simp [handlePlayPauseOp], ?_, ?_⟩
          · simp [handlePlayPauseOp, getCurrentTime]
          · simpa [handlePlayPauseOp, getCurrentTime] using h1
      | true =>
          have hsa' : sa ≤ t₀ := hsa rfl
          have hpe' : t - sa + st ≤ dur := hpe rfl
          have hstop : stopPlayback t ⟨true, dur, true, st, sa⟩ =
              ⟨true, dur, false, t - sa + st, sa⟩ := by
            simp [stopPlayback, getCurrentTime, ht]
          have hstep : handlePlayPauseOp false t ⟨true, dur, true, st, sa⟩ =
              ⟨true, dur, false, t - sa + st, sa⟩ := by
            rw [← hstop]
            rfl
          rw [hstep]
          refine ⟨rfl, rfl, by show (0 : ℚ) ≤ t - sa + st; linarith, hpe', by simp, ?_, ?_⟩
          · simp only [getCurrentTime]
            norm_num
            linarith
          · simp only [getCurrentTime]
            norm_num
            linarith
  | true =>
      cases ip with
      | true =>
          have hsa' : sa ≤ t₀ := hsa rfl
          have hpe' : t - sa + st ≤ dur := hpe rfl
          have hstep : handlePlayPauseOp true t ⟨true, dur, true, st, sa⟩ =
              ⟨true, dur, true, st, sa⟩ := rfl
          rw [hstep]
          refine ⟨rfl, rfl, h0, h1, fun _ => by linarith, ?_, ?_⟩
          · simp only [getCurrentTime]
            norm_num
            linarith
          · simp only [getCurrentTime]
            norm_num
            linarith
      | false =>
          have hv : max 0 (min st dur) = st := by
            rw [min_eq_left h1, max_eq_right h0]
          have hstep : handlePlayPauseOp true t ⟨true, dur, false, st, sa⟩ =
              ⟨true, dur, true, max 0 (min st dur), t⟩ := rfl
          rw [hstep, hv]
          refine ⟨rfl, rfl, h0, h1, fun _ => le_refl t, ?_, ?_⟩
          · simp [getCurrentTime]
          · simp only [getCurrentTime]
            norm_num
            linarith

/-- C3 (original claim refuted): `currentOffset()` does not clamp to
`[0, duration]`.  Starting from a freshly loaded one-second track, a single
`play()` at wall-clock 1 followed by a read at wall-clock 152 returns 151,
which exceeds the duration 1. -/
theorem c3_counterexample :
    getCurrentTime 152 (handlePlayPauseOp true 1 ⟨true, 1, false, 0, 0⟩) = 151 ∧
    getDuration (handlePlayPauseOp true 1 ⟨true, 1, false, 0, 0⟩) = 1 ∧
    ¬ getCurrentTime 152 (handlePlayPauseOp true 1 ⟨true, 1, false, 0, 0⟩) ≤
        getDuration (handlePlayPauseOp true 1 ⟨true, 1, false, 0, 0⟩) := by
  norm_num [handlePlayPauseOp, startPlayback, getCurrentTime, getDuration]

/-- C3 (amended): `currentOffset()` returns `startTime` when not playing and
`now - startedAt + startTime` (unclamped) when playing; for every sequence of
`play()`/`pause()` operations with no seeks, taken at positive nondecreasing
wall-clock times and under which playback never runs past the end of the
track, the observed offsets are non-decreasing and never exceed the
duration. -/
theorem c3_offset_monotone :
    ∀ (ops : List (Bool × ℚ)) (s : ClockState) (t₀ : ℚ),
    s.hasBuffer = true → 0 ≤ s.startTime → s.startTime ≤ s.duration →
    (s.isPlaying = true → s.startedAt ≤ t₀) → 0 < t₀ →
    List.Chain' (· ≤ ·) (t₀ :: ops.map Prod.snd) →
    pastEndFreeB s ops = true →
    List.Chain' (· ≤ ·) (getCurrentTime t₀ s :: runTrace s ops) ∧
    ∀ v ∈ runTrace s ops, v ≤ s.duration := by
  intro ops
  induction ops with
  | nil =>
      intro s t₀ _ _ _ _ _ _ _
      refine ⟨?_, ?_⟩
      · exact List.chain'_singleton _
      · intro v hv
        simp [runTrace] at hv
  | cons p rest ih =>
      obtain ⟨op, t⟩ := p
      intro s t₀ hbuf h0 h1 hsa ht0 hchain hpe
      rw [List.map_cons, List.chain'_cons] at hchain
      obtain ⟨htt, hchain'⟩ := hchain
      rw [pastEndFreeB, Bool.and_eq_true] at hpe
      obtain ⟨hpe1, hpe2⟩ := hpe
      have hpe1' : s.isPlaying = true → t - s.startedAt + s.startTime ≤ s.duration := by
        intro hp
        rcases (Bool.or_eq_true _ _).mp hpe1 with hx | hx
        · rw [Bool.not_eq_true'] at hx
          rw [hp] at hx
          cases hx
        · exact of_decide_eq_true hx
      obtain ⟨ha, hd, hb0, hb1, hc, hD, hE⟩ :=
        clockStep_props op t t₀ s hbuf h0 h1 hsa ht0 htt hpe1'
      have ih' := ih (handlePlayPauseOp op t s) t ha hb0 (by rw [hd]; exact hb1) hc
        (lt_of_lt_of_le ht0 htt) hchain' hpe2
      obtain ⟨ihchain, ihbound⟩ := ih'
      constructor
      · simp only [runTrace]
        rw [List.chain'_cons]
        exact ⟨hD, ihchain⟩
      · intro v hv
        simp only [runTrace] at hv
        rcases List.mem_cons.mp hv with rfl | hv'
        · exact hE
        · have := ihbound v hv'
          rw [hd] at this
          exact this

/-- C3 witness: a play/pause/play run observed at times 2, 5, 7 on a
100-second track, with offsets 0, 3, 3. -/
theorem c3_offset_monotone_witness :
    ((⟨true, 100, false, 0, 0⟩ : ClockState).hasBuffer = true ∧
     pastEndFreeB (⟨true, 100, false, 0, 0⟩ : ClockState)
       [(true, 2), (false, 5), (true, 7)] = true) ∧
    List.Chain' (· ≤ ·)
      (getCurrentTime 1 (⟨true, 100, false, 0, 0⟩ : ClockState) ::
        runTrace (⟨true, 100, false, 0, 0⟩ : ClockState) [(true, 2), (false, 5), (true, 7)]) ∧
    ∀ v ∈ runTrace (⟨true, 100, false, 0, 0⟩ : ClockState) [(true, 2), (false, 5), (true, 7)],
      v ≤ (⟨true, 100, false, 0, 0⟩ : ClockState).duration :=
  ⟨⟨rfl, by norm_num [pastEndFreeB, handlePlayPauseOp, startPlayback, stopPlayback,
      getCurrentTime]⟩,
    c3_offset_monotone [(true, 2), (false, 5), (true, 7)] ⟨true, 100, false, 0, 0⟩ 1
      rfl (by norm_num) (by norm_num) (fun h => by cases h) (by norm_num)
      (by norm_num [List.chain'_cons])
      (by norm_num [pastEndFreeB, handlePlayPauseOp, startPlayback, stopPlayback,
        getCurrentTime])⟩

/-- C4 (original claim refuted): a failing `play(3)` at wall-clock 7 from a
paused state with stored offset 5 returns failure but leaves `startTime = 3`
and `startedAt = 7` — the clock state is not the one from before the call. -/
theorem c4_counterexample :
    (startPlayback 3 7 false ⟨true, 10, false, 5, 2⟩).1 = false ∧
    (startPlayback 3 7 false ⟨true, 10, false, 5, 2⟩).2.startTime = 3 ∧
    (⟨true, 10, false, 5, 2⟩ : ClockState).startTime = 5 ∧
    (startPlayback 3 7 false ⟨true, 10, false, 5, 2⟩).2 ≠ ⟨true, 10, false, 5, 2⟩ := by
  refine ⟨rfl, by norm_num [startPlayback], rfl, ?_⟩
  simp only [startPlayback, ClockState.mk.injEq]
  norm_num

/-- C4 (amended): when the output primitive cannot be started, `play` returns
a failure indicator and leaves `isPlaying` (and the buffer and duration)
unchanged, but the clock update is partially applied: `startTime` has already
been set to the clamped offset and `startedAt` to the current wall-clock
time. -/
theorem c4_start_failure (s : ClockState) (offset now : ℚ) (hbuf : s.hasBuffer = true) :
    startPlayback offset now false s =
      (false, { s with startTime := max 0 (min offset s.duration), startedAt := now }) := by
  simp [startPlayback, hbuf]

/-- C4 witness: the failure path at a concrete state. -/
theorem c4_start_failure_witness :
    (⟨true, 10, false, 5, 2⟩ : ClockState).hasBuffer = true ∧
    startPlayback 3 7 false ⟨true, 10, false, 5, 2⟩ =
      (false, { (⟨true, 10, false, 5, 2⟩ : ClockState) with
                  startTime := max 0 (min 3 (⟨true, 10, false, 5, 2⟩ : ClockState).duration),
                  startedAt := 7 }) :=
  ⟨rfl, c4_start_failure ⟨true, 10, false, 5, 2⟩ 3 7 rfl⟩

/-- C7 (original claim refuted): `resetAudio` does not clear the beat
detector's energy history — after a reset of a state whose history holds one
entry, the history still holds that entry. -/
theorem c7_counterexample :
    (resetAudio ⟨⟨true, 10, true, 5, 2⟩, ⟨[1], 3, 4⟩⟩).beat.energyHistory = [1] ∧
    (resetAudio ⟨⟨true, 10, true, 5, 2⟩, ⟨[1], 3, 4⟩⟩).beat.energyHistory ≠ [] := by
  refine ⟨rfl, ?_⟩
  simp [resetAudio]

/-- C7 (amended): `resetAudio` resets the clock — afterwards the buffer is
gone, `isPlaying` is false, and the reported offset is 0 at every instant —
but it leaves the beat detector state (energy history, cooldown counter,
last frame time) completely unchanged. -/
theorem c7_reset (a : AudioState) (now : ℚ) :
    getCurrentTime now (resetAudio a).clock = 0 ∧
    (resetAudio a).clock.isPlaying = false ∧
    (resetAudio a).clock.hasBuffer = false ∧
    (resetAudio a).clock.startTime = 0 ∧
    (resetAudio a).clock.startedAt = 0 ∧
    (resetAudio a).beat = a.beat := by
  refine ⟨?_, rfl, rfl, rfl, rfl, rfl⟩
  simp [getCurrentTime, resetAudio]

/-- C9: for every degenerate input — missing analyser state, a primitive read
failure, or bin count 0 — feature extraction returns the default record with
`volume = bass = mid = treble = 0` and `isBeat = false`, carrying placeholder
raw arrays of a default fallback length, and never touches the beat state. -/
theorem c9_degenerate_defaults :
    (∀ (r : Option (List ℕ × List ℕ)) (now : ℝ) (b : BeatState ℝ),
      calculateAudioFeatures none r now b = (createDefaultFeatures none, b)) ∧
    (∀ (n : ℕ) (now : ℝ) (b : BeatState ℝ),
      calculateAudioFeatures (some n) none now b = (createDefaultFeatures (some n), b)) ∧
    (∀ (n : ℕ) (td : List ℕ) (now : ℝ) (b : BeatState ℝ),
      calculateAudioFeatures (some n) (some ([], td)) now b =
        (createDefaultFeatures (some n), b)) ∧
    (∀ ab, (createDefaultFeatures ab).volume = 0 ∧ (createDefaultFeatures ab).bass = 0 ∧
      (createDefaultFeatures ab).mid = 0 ∧ (createDefaultFeatures ab).treble = 0 ∧
      (createDefaultFeatures ab).isBeat = false) ∧
    (createDefaultFeatures (some 0)).rawFrequencyData.length = 256 ∧
    (createDefaultFeatures (some 0)).rawTimeDomainData.length = 256 ∧
    (createDefaultFeatures none).rawFrequencyData.length = fftSize / 2 := by
  refine ⟨fun r now b => rfl, fun n now b => rfl, fun n td now b => rfl,
    fun ab => ⟨rfl, rfl, rfl, rfl, rfl⟩, ?_, ?_, ?_⟩
  · show (List.replicate 256 (0 : ℕ)).length = 256
    rw [List.length_replicate]
  · show (List.replicate 256 (128 : ℕ)).length = 256
    rw [List.length_replicate]
  · show (List.replicate (fftSize / 2) (0 : ℕ)).length = fftSize / 2
    rw [List.length_replicate]

/-- C10: pausing is idempotent on the clock state: `stopPlayback` on an
already-paused state changes nothing, and two consecutive `stopPlayback`
calls produce the same state as one. -/
theorem c10_pause_idempotent :
    (∀ (s : ClockState) (now : ℚ), s.isPlaying = false → stopPlayback now s = s) ∧
    (∀ (s : ClockState) (n1 n2 : ℚ), stopPlayback n2 (stopPlayback n1 s) = stopPlayback n1 s) := by
  have hnp : ∀ (s : ClockState) (now : ℚ), s.isPlaying = false → stopPlayback now s = s := by
    intro s now hp
    cases s
    simp_all [stopPlayback]
  refine ⟨hnp, ?_⟩
  intro s n1 n2
  exact hnp _ n2 rfl

/-- C10 witness: a second pause on a concrete already-paused state is the
identity. -/
theorem c10_pause_idempotent_witness :
    (⟨true, 10, false, 5, 2⟩ : ClockState).isPlaying = false ∧
    stopPlayback 3 ⟨true, 10, false, 5, 2⟩ = ⟨true, 10, false, 5, 2⟩ :=
  ⟨rfl, c10_pause_idempotent.1 ⟨true, 10, false, 5, 2⟩ 3 rfl⟩

end MusicVis
